import Mathlib

/-!
Shallow embedding of the Electrostatic-Field-Plotting repository.

The embedding covers the geometry sampler (`src/plot/cylinder.py`,
class `CoaxialCylinder`) and the field evaluator (`src/plot/field.py`,
class `DielectricField`).  Python floats are modelled as exact rationals;
values produced by the transcendental functions `np.cos`, `np.sin`,
`np.sqrt` and `np.log` live in `ℝ`.  The float64 constant `np.pi` is the
exact rational below.  NumPy arrays are modelled as Lean lists; `int(x)`
is truncation toward zero; Python `float / 0.0` is a raised
`ZeroDivisionError`, modelled through `Except`.
-/

namespace EFP

/-- Error values modelling the exceptions the Python code can raise. -/
inductive PyErr
  /-- The explicit `ValueError` raised by `CoaxialCylinder.to_cartesian`
  when `Er.shape != Ez.shape` (the spec's `ShapeMismatch`). -/
  | shapeMismatch
  /-- A NumPy broadcasting `ValueError` from an elementwise operation on
  arrays of incompatible lengths. -/
  | broadcastErr
  /-- A NumPy `ValueError` from `np.vstack` on rows of different lengths. -/
  | stackErr
  /-- A Python `ZeroDivisionError`. -/
  | zeroDivision
deriving DecidableEq

/-- Region labels; spec §3: region is one of GAS, DIELECTRIC. -/
inductive Region
  | GAS
  | DIELECTRIC
deriving DecidableEq

/-- The exact value of the IEEE-754 double constant `np.pi`,
namely 884279719003555 * 2 ^ (-48). -/
def pi_f : ℚ := 884279719003555 / 281474976710656

/-- Python `int(x)` on a float: truncation toward zero. -/
def truncI (q : ℚ) : ℤ := if 0 ≤ q then ⌊q⌋ else -⌊-q⌋

/-- The dataclass `CoaxialCylinder(r_i, r_o, L, Δ=1e-2)` of
`src/plot/cylinder.py`. -/
structure CoaxialCylinder where
  r_i : ℚ
  r_o : ℚ
  L : ℚ
  Δ : ℚ := 1e-2

/-- Radial sample count: `N_r = int((r_o - r_i) / Δ)` clamped by
`N_r_min = max(N_r, 10)` (`cylinder.py` lines 63, 68). -/
def N_r (c : CoaxialCylinder) : ℕ := (max (truncI ((c.r_o - c.r_i) / c.Δ)) 10).toNat

/-- Angular sample count: `N_theta = int(np.pi * (r_i + r_o) / Δ)` clamped by
`max(N_theta, 20)` (`cylinder.py` lines 64, 69). -/
def N_theta (c : CoaxialCylinder) : ℕ := (max (truncI (pi_f * (c.r_i + c.r_o) / c.Δ)) 20).toNat

/-- Axial sample count: `N_z = int(L / Δ)` clamped by `max(N_z, 5)`
(`cylinder.py` lines 65, 70). -/
def N_z (c : CoaxialCylinder) : ℕ := (max (truncI (c.L / c.Δ)) 5).toNat

/-- Number of grid points: the product of the three clamped counts. -/
def gridLen (c : CoaxialCylinder) : ℕ := N_r c * (N_theta c * N_z c)

/-- `np.linspace(a, b, n)` with the default `endpoint=True`:
values `a + i * ((b - a) / (n - 1))` for `i = 0, …, n-1`. -/
def linspace (a b : ℚ) (n : ℕ) : List ℚ :=
  (List.range n).map fun i : ℕ => a + (i : ℚ) * ((b - a) / ((n : ℚ) - 1))

/-- `np.linspace(a, b, n, endpoint=False)`:
values `a + i * ((b - a) / n)` for `i = 0, …, n-1`. -/
def linspaceEx (a b : ℚ) (n : ℕ) : List ℚ :=
  (List.range n).map fun i : ℕ => a + (i : ℚ) * ((b - a) / (n : ℚ))

/-- The three coordinate arrays built by
`CoaxialCylinder.spaced_coordinates` (`cylinder.py` lines 72-78):
`r = linspace(r_i, r_o, N_r_min)`,
`theta = linspace(0, 2*pi, N_theta_min, endpoint=False)`,
`z = linspace(-L/2, L/2, N_z_min)`. -/
def spaced_coordinates (c : CoaxialCylinder) : List ℚ × List ℚ × List ℚ :=
  (linspace c.r_i c.r_o (N_r c),
   linspaceEx 0 (2 * pi_f) (N_theta c),
   linspace (-(c.L / 2)) (c.L / 2) (N_z c))

/-- `spaced_coordinates` together with its only possible runtime failure:
the three `int(… / Δ)` sample-count expressions raise `ZeroDivisionError`
when `Δ = 0`; no other input is rejected (the source performs no geometry
validation). -/
def spaced_coordinatesE (c : CoaxialCylinder) : Except PyErr (List ℚ × List ℚ × List ℚ) :=
  if c.Δ = 0 then .error .zeroDivision else .ok (spaced_coordinates c)

/-- The grid as cylindrical triples `(r, theta, z)` in the enumeration
order produced by `np.meshgrid(r, theta, z, indexing="ij")` followed by
`ravel()` in C order (`cylinder.py` lines 95-104): radius outermost,
then angle, then axial position. -/
def gridTriples (c : CoaxialCylinder) : List (ℚ × ℚ × ℚ) :=
  (spaced_coordinates c).1.flatMap fun r =>
    (spaced_coordinates c).2.1.flatMap fun t =>
      (spaced_coordinates c).2.2.map fun z => (r, t, z)

/-- Flattened array `x_f = (r * cos(theta)).ravel()` of
`CoaxialCylinder.points`. -/
noncomputable def xs (c : CoaxialCylinder) : List ℝ :=
  (gridTriples c).map fun p => (p.1 : ℝ) * Real.cos (p.2.1 : ℝ)

/-- Flattened array `y_f = (r * sin(theta)).ravel()` of
`CoaxialCylinder.points`. -/
noncomputable def ys (c : CoaxialCylinder) : List ℝ :=
  (gridTriples c).map fun p => (p.1 : ℝ) * Real.sin (p.2.1 : ℝ)

/-- Flattened array `z_f = zz.ravel()` of `CoaxialCylinder.points`. -/
noncomputable def zs (c : CoaxialCylinder) : List ℝ :=
  (gridTriples c).map fun p => (p.2.2 : ℝ)

/-- The cached property `CoaxialCylinder.points`: the triple of flattened
Cartesian coordinate arrays `(x_f, y_f, z_f)`. -/
noncomputable def CoaxialCylinder.points (c : CoaxialCylinder) : List ℝ × List ℝ × List ℝ :=
  (xs c, ys c, zs c)

/-- The cached property `CoaxialCylinder.rz_coordinates`
(`cylinder.py` lines 108-128): `r = np.sqrt(x**2 + y**2)` over the
flattened points, paired with the flattened `z`. -/
noncomputable def CoaxialCylinder.rz_coordinates (c : CoaxialCylinder) : List ℝ × List ℝ :=
  (List.zipWith (fun a b => Real.sqrt (a ^ 2 + b ^ 2)) (xs c) (ys c), zs c)

/-- Modelled from the spec: `field.py` line 31 reads `coords.coordinates`,
an attribute absent from `src/plot/cylinder.py`.  Spec §4.2 step 1 says it
yields the cylindrical sample radii and axial positions of the owned
geometry, which is precisely `rz_coordinates`. -/
noncomputable def CoaxialCylinder.coordinates (c : CoaxialCylinder) : List ℝ × List ℝ :=
  c.rz_coordinates

/-- Elementwise product of two 1-D NumPy arrays, including the size-1
broadcasting rule: lengths must agree, or one operand must have length 1;
any other combination raises a broadcasting error. -/
noncomputable def bmul (a b : List ℝ) : Option (List ℝ) :=
  if a.length = b.length then some (List.zipWith (· * ·) a b)
  else if a.length = 1 then some (b.map fun x => a.headI * x)
  else if b.length = 1 then some (a.map fun x => x * b.headI)
  else none

/-- Combine three equal-length component lists into a list of triples. -/
def zip3 {α β γ : Type} (a : List α) (b : List β) (c : List γ) : List (α × β × γ) :=
  List.zipWith (fun x p => (x, p)) a (List.zipWith Prod.mk b c)

/-- `np.vstack((a, b, c)).T` on 1-D rows: requires the three rows to have
equal length, otherwise raises. -/
def vstack3 {α : Type} (a b c : List α) : Option (List (α × α × α)) :=
  if a.length = b.length ∧ b.length = c.length then some (zip3 a b c) else none

/-- `CoaxialCylinder.to_cartesian(Er, Ez)` (`cylinder.py` lines 130-175).
The explicit guard raises (the spec's ShapeMismatch) iff
`Er.shape != Ez.shape`; then `r = sqrt(x**2 + y**2)`,
`r_safe = np.maximum(r, 1e-15)`, `Ex = Er * (x / r_safe)`,
`Ey = Er * (y / r_safe)`, `vectors = np.vstack((Ex, Ey, Ez)).T`,
`points = np.vstack((x, y, z)).T`, `mag = np.linalg.norm(vectors, axis=1)`,
`mag_safe = np.maximum(mag, 1e-15)`, `vectors_unit = vectors / mag_safe`.
Returns `(points, vectors_unit, mag)`. -/
noncomputable def to_cartesian (c : CoaxialCylinder) (Er Ez : List ℝ) :
    Except PyErr (List (ℝ × ℝ × ℝ) × List (ℝ × ℝ × ℝ) × List ℝ) :=
  if Er.length ≠ Ez.length then .error .shapeMismatch
  else
    let x := xs c
    let y := ys c
    let z := zs c
    let r := List.zipWith (fun a b => Real.sqrt (a ^ 2 + b ^ 2)) x y
    let r_safe := r.map fun v => max v 1e-15
    match bmul Er (List.zipWith (· / ·) x r_safe),
          bmul Er (List.zipWith (· / ·) y r_safe) with
    | some Ex, some Ey =>
      match vstack3 Ex Ey Ez with
      | some vectors =>
        let pts := zip3 x y z
        let mag := vectors.map fun v => Real.sqrt (v.1 ^ 2 + v.2.1 ^ 2 + v.2.2 ^ 2)
        let mag_safe := mag.map fun m => max m 1e-15
        let vectors_unit :=
          List.zipWith (fun v m => (v.1 / m, v.2.1 / m, v.2.2 / m)) vectors mag_safe
        .ok (pts, vectors_unit, mag)
      | none => .error .stackErr
    | _, _ => .error .broadcastErr

/-- The class constant `eps_0 = 8.854e-12` of `DielectricField`. -/
def eps_0 : ℚ := 8.854e-12

/-- The configuration of `DielectricField` (`field.py` lines 11-21).  The
source fixes these as class attributes; the structure generalizes them to
an arbitrary configuration, with `defaultField` holding the source's
values. -/
structure DielectricField where
  eps_g : ℚ
  eps_d : ℚ
  r_a : ℚ
  r_d : ℚ
  r_b : ℚ
  L : ℚ
  V_0 : ℚ

/-- The concrete class-attribute configuration of `field.py`:
`eps_g = eps_0`, `eps_d = 5 * eps_0`, `r_a = 13.5e-3`, `r_d = 14.8e-3`,
`r_b = 18e-3`, `L = 20e-2`, `V_0 = 10e3`. -/
def defaultField : DielectricField :=
  ⟨eps_0, 5 * eps_0, 13.5e-3, 14.8e-3, 18e-3, 20e-2, 10e3⟩

/-- The owned geometry `coords = cylinder.CoaxialCylinder(r_a, r_b, L)`
(`field.py` line 25), with the default pitch `Δ = 1e-2`. -/
def DielectricField.coords (f : DielectricField) : CoaxialCylinder :=
  ⟨f.r_a, f.r_b, f.L, 1e-2⟩

/-- The class attribute
`geometric_factor = eps_g / (eps_g * np.log(r_d / r_a) + eps_d * np.log(r_b / r_d))`
(`field.py` line 23). -/
noncomputable def DielectricField.geometric_factor (f : DielectricField) : ℝ :=
  (f.eps_g : ℝ) /
    ((f.eps_g : ℝ) * Real.log ((f.r_d : ℝ) / (f.r_a : ℝ)) +
      (f.eps_d : ℝ) * Real.log ((f.r_b : ℝ) / (f.r_d : ℝ)))

/-- Evaluator construction.  The source performs no validation when the
class body runs: `np.log` of a non-positive argument yields NaN with a
warning rather than raising, and no `InvalidGeometry` check exists, so
construction succeeds for every input. -/
def mkDielectricField (eps_g eps_d r_a r_d r_b L V_0 : ℚ) : Except PyErr DielectricField :=
  .ok ⟨eps_g, eps_d, r_a, r_d, r_b, L, V_0⟩

/-- Pointwise `term1 = (z + half_L) / np.sqrt(r_safe**2 + (z + half_L)**2)`
(`field.py` line 37), with `h` standing for `half_L`. -/
noncomputable def term1F (h r z : ℝ) : ℝ := (z + h) / Real.sqrt (r ^ 2 + (z + h) ^ 2)

/-- Pointwise `term2 = (z - half_L) / np.sqrt(r_safe**2 + (z - half_L)**2)`
(`field.py` line 38). -/
noncomputable def term2F (h r z : ℝ) : ℝ := (z - h) / Real.sqrt (r ^ 2 + (z - h) ^ 2)

/-- Pointwise `axial_factor = (term1 - term2) / 2` (`field.py` line 40). -/
noncomputable def axial_factor (h r z : ℝ) : ℝ := (term1F h r z - term2F h r z) / 2

/-- Pointwise `Er = V_0 * geometric_factor / r_safe * axial_factor`
(`field.py` line 42). -/
noncomputable def ErF (V0 G h r z : ℝ) : ℝ := V0 * G / r * axial_factor h r z

/-- Pointwise `Ez = V_0 * geometric_factor * (1/sqrt(r_safe**2 + (z-half_L)**2)
- 1/sqrt(r_safe**2 + (z+half_L)**2))` (`field.py` lines 44-51). -/
noncomputable def EzF (V0 G h r z : ℝ) : ℝ :=
  V0 * G * (1 / Real.sqrt (r ^ 2 + (z - h) ^ 2) - 1 / Real.sqrt (r ^ 2 + (z + h) ^ 2))

/-- The dielectric correction applied pointwise by the
`np.where(mask_diel, E * factor_diel, E)` lines (`field.py` lines 53-57):
the mask compares the (clamped) radius against `r_d`. -/
noncomputable def dielCorr (r_d fac r e : ℝ) : ℝ := if r_d ≤ r then e * fac else e

/-- The array `r_safe = np.maximum(r, 1e-15)` of `calculate_field`
(`field.py` lines 31-33), built from `coords.coordinates`. -/
noncomputable def DielectricField.rsafeList (f : DielectricField) : List ℝ :=
  (f.coords.coordinates).1.map fun r => max r 1e-15

/-- The axial-position array `z` of `calculate_field` (`field.py` line 31). -/
noncomputable def DielectricField.zList (f : DielectricField) : List ℝ :=
  (f.coords.coordinates).2

/-- The array `Er` of `calculate_field` (`field.py` lines 37-42),
elementwise over `(r_safe, z)`. -/
noncomputable def DielectricField.ErList (f : DielectricField) : List ℝ :=
  List.zipWith (fun r z => ErF (f.V_0 : ℝ) f.geometric_factor ((f.L : ℝ) / 2) r z)
    f.rsafeList f.zList

/-- The array `Ez` of `calculate_field` (`field.py` lines 44-51). -/
noncomputable def DielectricField.EzList (f : DielectricField) : List ℝ :=
  List.zipWith (fun r z => EzF (f.V_0 : ℝ) f.geometric_factor ((f.L : ℝ) / 2) r z)
    f.rsafeList f.zList

/-- `factor_diel = eps_d / eps_g` (`field.py` line 54). -/
noncomputable def DielectricField.factor_diel (f : DielectricField) : ℝ :=
  (f.eps_d : ℝ) / (f.eps_g : ℝ)

/-- `Er_diel = np.where(r_safe >= r_d, Er * factor_diel, Er)`
(`field.py` lines 53-56). -/
noncomputable def DielectricField.Er_diel (f : DielectricField) : List ℝ :=
  List.zipWith (fun r e => dielCorr (f.r_d : ℝ) f.factor_diel r e) f.rsafeList f.ErList

/-- `Ez_diel = np.where(r_safe >= r_d, Ez * factor_diel, Ez)`
(`field.py` lines 53-57). -/
noncomputable def DielectricField.Ez_diel (f : DielectricField) : List ℝ :=
  List.zipWith (fun r e => dielCorr (f.r_d : ℝ) f.factor_diel r e) f.rsafeList f.EzList

/-- `DielectricField.calculate_field` (`field.py` lines 27-59): computes
`Er_diel`, `Ez_diel` and returns `coords.to_cartesian(Er_diel, Ez_diel)`. -/
noncomputable def DielectricField.calculate_field (f : DielectricField) :
    Except PyErr (List (ℝ × ℝ × ℝ) × List (ℝ × ℝ × ℝ) × List ℝ) :=
  to_cartesian f.coords f.Er_diel f.Ez_diel

/-- Modelled from the spec: `plot.py` line 58 calls `field.regions()`,
a method absent from `src/plot/field.py`.  Spec §4.2 step 3: a sample is
classified DIELECTRIC iff its cylindrical radius is at least `r_d`, else
GAS, one label per grid sample. -/
noncomputable def DielectricField.regions (f : DielectricField) : List Region :=
  (f.coords.coordinates).1.map fun r =>
    if (f.r_d : ℝ) ≤ r then Region.DIELECTRIC else Region.GAS

/-- Modelled from the spec: `plot.py` line 148 calls
`field.mean_radial_error()`, a method absent from `src/plot/field.py`.
Spec §4.2 and §9 describe it as the mean over all samples of the relative
deviation of the approximated radial field from the infinite-cylinder
ideal `V_0 * G / r`; since `Er = (V_0 * G / r) * axial_factor`, that
relative deviation is `1 - axial_factor`, averaged over the grid. -/
noncomputable def DielectricField.mean_radial_error (f : DielectricField) : ℝ :=
  let rz := f.coords.coordinates
  let err := List.zipWith (fun r z => 1 - axial_factor ((f.L : ℝ) / 2) r z) rz.1 rz.2
  err.sum / err.length

/-! ## Basic lemmas about the embedding -/

@[simp]
theorem length_linspace (a b : ℚ) (n : ℕ) : (linspace a b n).length = n := by
  unfold linspace
  rw [List.length_map, List.length_range]

@[simp]
theorem length_linspaceEx (a b : ℚ) (n : ℕ) : (linspaceEx a b n).length = n := by
  unfold linspaceEx
  rw [List.length_map, List.length_range]

theorem linspace_mem_bounds {a b : ℚ} {n : ℕ} (hab : a ≤ b) {q : ℚ}
    (hq : q ∈ linspace a b n) : a ≤ q ∧ q ≤ b := by
  unfold linspace at hq
  obtain ⟨i, hmem, rfl⟩ := List.mem_map.mp hq
  have hi : i < n := List.mem_range.mp hmem
  by_cases h1 : (n : ℚ) - 1 = 0
  · simp [h1, div_zero, hab]
  · have hn2 : 2 ≤ n := by
      rcases n with _ | _ | n
      · omega
      · exfalso
        apply h1
        norm_num
      · omega
    have hpos : (0 : ℚ) < (n : ℚ) - 1 := by
      have : (2 : ℚ) ≤ (n : ℚ) := by exact_mod_cast hn2
      linarith
    have hstep : 0 ≤ (b - a) / ((n : ℚ) - 1) := div_nonneg (by linarith) hpos.le
    constructor
    · nlinarith [mul_nonneg (Nat.cast_nonneg (α := ℚ) i) hstep]
    · have hile : (i : ℚ) ≤ (n : ℚ) - 1 := by
        have : (i : ℚ) + 1 ≤ (n : ℚ) := by exact_mod_cast hi
        linarith
      have hmul : (i : ℚ) * ((b - a) / ((n : ℚ) - 1)) ≤
          ((n : ℚ) - 1) * ((b - a) / ((n : ℚ) - 1)) :=
        mul_le_mul_of_nonneg_right hile hstep
      rw [mul_div_cancel₀ _ h1] at hmul
      linarith

theorem linspaceEx_mem_bounds {B : ℚ} {n : ℕ} (hB : 0 < B) {q : ℚ}
    (hq : q ∈ linspaceEx 0 B n) : 0 ≤ q ∧ q < B := by
  unfold linspaceEx at hq
  obtain ⟨i, hmem, rfl⟩ := List.mem_map.mp hq
  have hi : i < n := List.mem_range.mp hmem
  have hn : 0 < n := Nat.lt_of_le_of_lt (Nat.zero_le i) hi
  have hnQ : (0 : ℚ) < (n : ℚ) := by exact_mod_cast hn
  have hstep : 0 < (B - 0) / (n : ℚ) := div_pos (by linarith) hnQ
  constructor
  · have := mul_nonneg (Nat.cast_nonneg (α := ℚ) i) hstep.le
    linarith
  · have hilt : (i : ℚ) < (n : ℚ) := by exact_mod_cast hi
    have hmul : (i : ℚ) * ((B - 0) / (n : ℚ)) < (n : ℚ) * ((B - 0) / (n : ℚ)) :=
      mul_lt_mul_of_pos_right hilt hstep
    rw [mul_div_cancel₀ _ (ne_of_gt hnQ)] at hmul
    linarith

theorem length_flatMap_const {α β : Type} (l : List α) (f : α → List β) (m : ℕ)
    (h : ∀ a ∈ l, (f a).length = m) : (l.flatMap f).length = l.length * m := by
  induction l with
  | nil => simp
  | cons a t ih =>
    simp only [List.flatMap_cons, List.length_append, List.length_cons]
    rw [h a (List.mem_cons_self a t), ih fun x hx => h x (List.mem_cons_of_mem a hx)]
    ring

theorem length_gridTriples (c : CoaxialCylinder) : (gridTriples c).length = gridLen c := by
  unfold gridTriples gridLen
  rw [length_flatMap_const _ _ (N_theta c * N_z c)]
  · simp [spaced_coordinates]
  · intro a _
    rw [length_flatMap_const _ _ (N_z c)]
    · simp [spaced_coordinates]
    · intro b _
      simp [spaced_coordinates]

@[simp]
theorem length_xs (c : CoaxialCylinder) : (xs c).length = gridLen c := by
  simp [xs, length_gridTriples]

@[simp]
theorem length_ys (c : CoaxialCylinder) : (ys c).length = gridLen c := by
  simp [ys, length_gridTriples]

@[simp]
theorem length_zs (c : CoaxialCylinder) : (zs c).length = gridLen c := by
  simp [zs, length_gridTriples]

theorem N_r_ge (c : CoaxialCylinder) : 10 ≤ N_r c := by
  unfold N_r
  have h := le_max_right (truncI ((c.r_o - c.r_i) / c.Δ)) 10
  omega

theorem N_theta_ge (c : CoaxialCylinder) : 20 ≤ N_theta c := by
  unfold N_theta
  have h := le_max_right (truncI (pi_f * (c.r_i + c.r_o) / c.Δ)) 20
  omega

theorem N_z_ge (c : CoaxialCylinder) : 5 ≤ N_z c := by
  unfold N_z
  have h := le_max_right (truncI (c.L / c.Δ)) 5
  omega

theorem gridLen_ge (c : CoaxialCylinder) : 1000 ≤ gridLen c := by
  have h1 := N_r_ge c
  have h2 := N_theta_ge c
  have h3 := N_z_ge c
  calc (1000 : ℕ) = 10 * (20 * 5) := by norm_num
    _ ≤ N_r c * (N_theta c * N_z c) := Nat.mul_le_mul h1 (Nat.mul_le_mul h2 h3)
    _ = gridLen c := rfl

theorem gridLen_pos (c : CoaxialCylinder) : 0 < gridLen c := by
  have h := gridLen_ge c
  omega

@[simp]
theorem length_rz_r (c : CoaxialCylinder) : c.rz_coordinates.1.length = gridLen c := by
  simp [CoaxialCylinder.rz_coordinates]

@[simp]
theorem length_rz_z (c : CoaxialCylinder) : c.rz_coordinates.2.length = gridLen c := by
  simp [CoaxialCylinder.rz_coordinates]

@[simp]
theorem length_coordinates_r (c : CoaxialCylinder) : c.coordinates.1.length = gridLen c := by
  simp [CoaxialCylinder.coordinates]

@[simp]
theorem length_coordinates_z (c : CoaxialCylinder) : c.coordinates.2.length = gridLen c := by
  simp [CoaxialCylinder.coordinates]

@[simp]
theorem length_rsafeList (f : DielectricField) : f.rsafeList.length = gridLen f.coords := by
  simp [DielectricField.rsafeList]

@[simp]
theorem length_zList (f : DielectricField) : f.zList.length = gridLen f.coords := by
  simp [DielectricField.zList]

@[simp]
theorem length_ErList (f : DielectricField) : f.ErList.length = gridLen f.coords := by
  simp [DielectricField.ErList]

@[simp]
theorem length_EzList (f : DielectricField) : f.EzList.length = gridLen f.coords := by
  simp [DielectricField.EzList]

@[simp]
theorem length_Er_diel (f : DielectricField) : f.Er_diel.length = gridLen f.coords := by
  simp [DielectricField.Er_diel]

@[simp]
theorem length_Ez_diel (f : DielectricField) : f.Ez_diel.length = gridLen f.coords := by
  simp [DielectricField.Ez_diel]

@[simp]
theorem length_regions (f : DielectricField) : f.regions.length = gridLen f.coords := by
  simp [DielectricField.regions]

@[simp]
theorem length_zip3 {α β γ : Type} (a : List α) (b : List β) (c : List γ) :
    (zip3 a b c).length = min a.length (min b.length c.length) := by
  simp [zip3]

theorem to_cartesian_ok (c : CoaxialCylinder) (Er Ez : List ℝ)
    (h1 : Er.length = gridLen c) (h2 : Ez.length = gridLen c) :
    ∃ pts units mags, to_cartesian c Er Ez = .ok (pts, units, mags) ∧
      pts.length = gridLen c ∧ units.length = gridLen c ∧ mags.length = gridLen c := by
  have hx := length_xs c
  have hy := length_ys c
  have hz := length_zs c
  have hdx : (List.zipWith (· / ·) (xs c)
      ((List.zipWith (fun a b => Real.sqrt (a ^ 2 + b ^ 2)) (xs c) (ys c)).map
        fun v => max v 1e-15)).length = gridLen c := by
    simp
  have hdy : (List.zipWith (· / ·) (ys c)
      ((List.zipWith (fun a b => Real.sqrt (a ^ 2 + b ^ 2)) (xs c) (ys c)).map
        fun v => max v 1e-15)).length = gridLen c := by
    simp
  simp only [to_cartesian, bmul, vstack3, h1, h2, hdx, hdy, List.length_zipWith,
    List.length_map, length_xs, length_ys, length_zs, min_self, ne_eq,
    not_true_eq_false, if_false, ite_true, ite_false, eq_self_iff_true, and_self,
    if_true, Bool.false_eq_true]
  refine ⟨_, _, _, rfl, ?_, ?_, ?_⟩
  · simp
  · simp [h1, h2]
  · simp [h1, h2]

theorem of_mem_zipWith {α β γ : Type} {f : α → β → γ} {as : List α} {bs : List β} {x : γ}
    (hx : x ∈ List.zipWith f as bs) :
    ∃ i : ℕ, ∃ (ha : i < as.length) (hb : i < bs.length),
      x = f (as.get ⟨i, ha⟩) (bs.get ⟨i, hb⟩) := by
  induction as generalizing bs with
  | nil => simp at hx
  | cons a ta ih =>
    cases bs with
    | nil => simp at hx
    | cons b tb =>
      rw [List.zipWith_cons_cons] at hx
      rcases List.mem_cons.mp hx with h | h
      · exact ⟨0, by simp, by simp, by simpa using h⟩
      · obtain ⟨i, ha, hb, hval⟩ := ih h
        exact ⟨i + 1, by simpa using Nat.succ_lt_succ ha,
          by simpa using Nat.succ_lt_succ hb, by simpa using hval⟩

theorem gridTriples_mem_parts {c : CoaxialCylinder} {p : ℚ × ℚ × ℚ}
    (hp : p ∈ gridTriples c) :
    p.1 ∈ (spaced_coordinates c).1 ∧ p.2.1 ∈ (spaced_coordinates c).2.1 ∧
      p.2.2 ∈ (spaced_coordinates c).2.2 := by
  unfold gridTriples at hp
  obtain ⟨r, hr, hp2⟩ := List.mem_flatMap.mp hp
  obtain ⟨t, ht, hp3⟩ := List.mem_flatMap.mp hp2
  obtain ⟨z, hz, rfl⟩ := List.mem_map.mp hp3
  exact ⟨hr, ht, hz⟩

theorem sqrt_circle (a t : ℝ) :
    Real.sqrt ((a * Real.cos t) ^ 2 + (a * Real.sin t) ^ 2) = |a| := by
  have hh : (a * Real.cos t) ^ 2 + (a * Real.sin t) ^ 2 = a ^ 2 := by
    have h := Real.sin_sq_add_cos_sq t
    nlinarith [h]
  rw [hh, Real.sqrt_sq_eq_abs]

theorem rz_radius_core (c : CoaxialCylinder) (h0 : 0 ≤ c.r_i) (h2 : c.r_i ≤ c.r_o)
    (i : ℕ) (hr1 : i < c.rz_coordinates.1.length) :
    (c.r_i : ℝ) ≤ c.rz_coordinates.1.get ⟨i, hr1⟩ ∧
      c.rz_coordinates.1.get ⟨i, hr1⟩ ≤ (c.r_o : ℝ) := by
  have hx : i < (xs c).length := by
    simpa using (by simpa using hr1 : i < gridLen c)
  have hy : i < (ys c).length := by
    simpa using (by simpa using hr1 : i < gridLen c)
  have hg : i < (gridTriples c).length := by
    rw [length_gridTriples]
    simpa using hr1
  have hval : c.rz_coordinates.1.get ⟨i, hr1⟩ =
      Real.sqrt (((xs c).get ⟨i, hx⟩) ^ 2 + ((ys c).get ⟨i, hy⟩) ^ 2) := by
    simp [CoaxialCylinder.rz_coordinates]
  set p := (gridTriples c).get ⟨i, hg⟩ with hpdef
  have hxv : (xs c).get ⟨i, hx⟩ = (p.1 : ℝ) * Real.cos (p.2.1 : ℝ) := by
    simp [xs, hpdef]
  have hyv : (ys c).get ⟨i, hy⟩ = (p.1 : ℝ) * Real.sin (p.2.1 : ℝ) := by
    simp [ys, hpdef]
  have hpmem : p ∈ gridTriples c := List.get_mem _ _ hg
  have hbounds := linspace_mem_bounds h2 (gridTriples_mem_parts hpmem).1
  have habs : c.rz_coordinates.1.get ⟨i, hr1⟩ = |((p.1 : ℚ) : ℝ)| := by
    rw [hval, hxv, hyv, sqrt_circle]
  have hp1 : (0 : ℚ) ≤ p.1 := le_trans h0 hbounds.1
  rw [habs, abs_of_nonneg (by exact_mod_cast hp1)]
  constructor
  · exact_mod_cast hbounds.1
  · exact_mod_cast hbounds.2

theorem max_mask_iff {rd r eps : ℝ} (h : eps < rd) : rd ≤ max r eps ↔ rd ≤ r := by
  constructor
  · intro hle
    rcases max_cases r eps with ⟨hm, _⟩ | ⟨hm, hre⟩
    · rw [hm] at hle
      exact hle
    · rw [hm] at hle
      linarith
  · intro hle
    exact le_trans hle (le_max_left _ _)

/-! ## Claim theorems -/

/-- C1: `calculate_field()` succeeds and returns three parallel sequences
(Cartesian points, unit vectors, magnitudes) of identical length, and the
`regions()` labels form a fourth parallel sequence of the same length; the
common length is the product of the three clamped per-axis sample counts
(no masking). -/
theorem C1_parallel_lengths (f : DielectricField) :
    ∃ pts units mags, f.calculate_field = .ok (pts, units, mags) ∧
      pts.length = N_r f.coords * (N_theta f.coords * N_z f.coords) ∧
      units.length = N_r f.coords * (N_theta f.coords * N_z f.coords) ∧
      mags.length = N_r f.coords * (N_theta f.coords * N_z f.coords) ∧
      f.regions.length = N_r f.coords * (N_theta f.coords * N_z f.coords) := by
  obtain ⟨pts, units, mags, heq, hp, hu, hm⟩ :=
    to_cartesian_ok f.coords f.Er_diel f.Ez_diel (length_Er_diel f) (length_Ez_diel f)
  exact ⟨pts, units, mags, heq, hp, hu, hm, length_regions f⟩

/-- C3: for every geometry with `r_o > r_i > 0`, `L > 0` and `Δ > 0`, every
generated radial sample lies in `[r_i, r_o]`, every axial sample lies in
`[-L/2, L/2]`, every angular sample lies in `[0, 2π)`, and the seam value
`2π` is never generated (so `0` and `2π` never both appear). -/
theorem C3_sample_bounds (c : CoaxialCylinder) (_h1 : 0 < c.r_i) (h2 : c.r_i < c.r_o)
    (h3 : 0 < c.L) (_h4 : 0 < c.Δ) :
    (∀ q ∈ (spaced_coordinates c).1, c.r_i ≤ q ∧ q ≤ c.r_o) ∧
    (∀ q ∈ (spaced_coordinates c).2.2, -(c.L / 2) ≤ q ∧ q ≤ c.L / 2) ∧
    (∀ q ∈ (spaced_coordinates c).2.1, 0 ≤ q ∧ q < 2 * pi_f) ∧
    2 * pi_f ∉ (spaced_coordinates c).2.1 := by
  have hpi : (0 : ℚ) < 2 * pi_f := by norm_num [pi_f]
  refine ⟨?_, ?_, ?_, ?_⟩
  · intro q hq
    exact linspace_mem_bounds h2.le hq
  · intro q hq
    exact linspace_mem_bounds (by linarith) hq
  · intro q hq
    exact linspaceEx_mem_bounds hpi hq
  · intro hmem
    exact absurd (linspaceEx_mem_bounds hpi hmem).2 (lt_irrefl _)

/-- C3 witness: the bounds instantiated at the source's concrete geometry. -/
theorem C3_sample_bounds_witness :
    (∀ q ∈ (spaced_coordinates defaultField.coords).1,
      defaultField.coords.r_i ≤ q ∧ q ≤ defaultField.coords.r_o) ∧
    (∀ q ∈ (spaced_coordinates defaultField.coords).2.2,
      -(defaultField.coords.L / 2) ≤ q ∧ q ≤ defaultField.coords.L / 2) ∧
    (∀ q ∈ (spaced_coordinates defaultField.coords).2.1, 0 ≤ q ∧ q < 2 * pi_f) ∧
    2 * pi_f ∉ (spaced_coordinates defaultField.coords).2.1 :=
  C3_sample_bounds defaultField.coords
    (by norm_num [defaultField, DielectricField.coords])
    (by norm_num [defaultField, DielectricField.coords])
    (by norm_num [defaultField, DielectricField.coords])
    (by norm_num [defaultField, DielectricField.coords])

/-- C4 counterexample: grid generation does NOT fail on `r_o ≤ r_i`; at
`r_i = 2, r_o = 1, L = 1, Δ = 1` the claim demands an InvalidGeometry
failure, but `spaced_coordinates` succeeds. -/
theorem C4_no_validation_counterexample :
    (1 : ℚ) ≤ 2 ∧ (spaced_coordinatesE ⟨2, 1, 1, 1⟩).isOk = true :=
  ⟨by norm_num, rfl⟩

/-- C4 amended: the source defines no InvalidGeometry exception and
performs no geometry validation.  Grid generation fails only when
`Δ = 0` (a Python `ZeroDivisionError` inside the sample-count
computation); degenerate radius orderings and non-positive `L` are
accepted and still produce a grid, and evaluator construction always
succeeds (`np.log` of a non-positive ratio yields NaN without raising). -/
theorem C4_failure_conditions :
    (∀ c : CoaxialCylinder, (spaced_coordinatesE c).isOk = false ↔ c.Δ = 0) ∧
    (∀ eg ed ra rd rb L V0 : ℚ, (mkDielectricField eg ed ra rd rb L V0).isOk = true) := by
  constructor
  · intro c
    unfold spaced_coordinatesE
    by_cases h : c.Δ = 0
    · simp [h, Except.isOk, Except.toBool]
    · simp [h, Except.isOk, Except.toBool]
  · intro eg ed ra rd rb L V0
    rfl

/-- C5: for every valid geometry the per-axis sample counts equal the
geometric extent divided by `Δ`, floored, then clamped to the minima
10 (radial), 20 (angular), 5 (axial); and the source's concrete
configuration yields `geometric_factor > 0` and counts meeting the
minima. -/
theorem C5_counts_and_concrete :
    (∀ c : CoaxialCylinder, 0 < c.Δ → c.r_i ≤ c.r_o → 0 ≤ c.L → 0 ≤ c.r_i + c.r_o →
      (N_r c : ℤ) = max ⌊(c.r_o - c.r_i) / c.Δ⌋ 10 ∧
      (N_theta c : ℤ) = max ⌊pi_f * (c.r_i + c.r_o) / c.Δ⌋ 20 ∧
      (N_z c : ℤ) = max ⌊c.L / c.Δ⌋ 5) ∧
    0 < defaultField.geometric_factor ∧
    10 ≤ N_r defaultField.coords ∧
    20 ≤ N_theta defaultField.coords ∧
    5 ≤ N_z defaultField.coords := by
  have htrunc : ∀ q : ℚ, 0 ≤ q → truncI q = ⌊q⌋ := by
    intro q hq
    unfold truncI
    rw [if_pos hq]
  refine ⟨?_, ?_, ?_, ?_, ?_⟩
  · intro c hΔ hro hL hsum
    have hpi : (0 : ℚ) ≤ pi_f := by norm_num [pi_f]
    refine ⟨?_, ?_, ?_⟩
    · unfold N_r
      rw [htrunc _ (div_nonneg (by linarith) hΔ.le)]
      exact Int.toNat_of_nonneg (le_trans (by norm_num) (le_max_right _ _))
    · unfold N_theta
      rw [htrunc _ (div_nonneg (mul_nonneg hpi hsum) hΔ.le)]
      exact Int.toNat_of_nonneg (le_trans (by norm_num) (le_max_right _ _))
    · unfold N_z
      rw [htrunc _ (div_nonneg hL hΔ.le)]
      exact Int.toNat_of_nonneg (le_trans (by norm_num) (le_max_right _ _))
  · unfold DielectricField.geometric_factor
    have h1 : 0 < Real.log ((defaultField.r_d : ℝ) / (defaultField.r_a : ℝ)) := by
      apply Real.log_pos
      simp only [defaultField]
      push_cast
      norm_num
    have h2 : 0 < Real.log ((defaultField.r_b : ℝ) / (defaultField.r_d : ℝ)) := by
      apply Real.log_pos
      simp only [defaultField]
      push_cast
      norm_num
    have he1 : (0 : ℝ) < (defaultField.eps_g : ℝ) := by
      simp only [defaultField, eps_0]
      push_cast
      norm_num
    have he2 : (0 : ℝ) < (defaultField.eps_d : ℝ) := by
      simp only [defaultField, eps_0]
      push_cast
      norm_num
    exact div_pos he1 (by positivity)
  · exact N_r_ge _
  · exact N_theta_ge _
  · exact N_z_ge _

/-- C5 witness: the count formula discharged at the source's concrete
geometry, together with the concrete positivity of the geometric factor. -/
theorem C5_counts_witness :
    ((N_r defaultField.coords : ℤ) =
      max ⌊(defaultField.coords.r_o - defaultField.coords.r_i) / defaultField.coords.Δ⌋ 10) ∧
    0 < defaultField.geometric_factor :=
  ⟨(C5_counts_and_concrete.1 defaultField.coords
      (by norm_num [defaultField, DielectricField.coords])
      (by norm_num [defaultField, DielectricField.coords])
      (by norm_num [defaultField, DielectricField.coords])
      (by norm_num [defaultField, DielectricField.coords])).1,
    C5_counts_and_concrete.2.1⟩

theorem to_cartesian_stackErr (c : CoaxialCylinder) (Er Ez : List ℝ)
    (hne : Er.length = Ez.length) (h1 : Er.length = 1) (hN : gridLen c ≠ 1) :
    to_cartesian c Er Ez = .error .stackErr := by
  have hez1 : Ez.length = 1 := hne ▸ h1
  have hg1 : (1 : ℕ) ≠ gridLen c := fun h => hN h.symm
  simp only [to_cartesian, bmul, vstack3, h1, hez1, List.length_zipWith, List.length_map,
    length_xs, length_ys, length_zs, min_self, ne_eq, not_true_eq_false, if_false,
    ite_true, ite_false, eq_self_iff_true, if_true, hg1, hN, and_false, false_and,
    and_true, true_and, Bool.false_eq_true]

theorem to_cartesian_broadcastErr (c : CoaxialCylinder) (Er Ez : List ℝ)
    (hne : Er.length = Ez.length) (h1 : Er.length ≠ 1) (hM : Er.length ≠ gridLen c)
    (hN : gridLen c ≠ 1) :
    to_cartesian c Er Ez = .error .broadcastErr := by
  have h1z : Ez.length ≠ 1 := hne ▸ h1
  have hMz : Ez.length ≠ gridLen c := hne ▸ hM
  simp only [to_cartesian, bmul, vstack3, hne, List.length_zipWith, List.length_map,
    length_xs, length_ys, length_zs, min_self, ne_eq, not_true_eq_false, if_false,
    ite_true, ite_false, eq_self_iff_true, if_true, h1z, hMz, hN, and_false, false_and,
    and_true, true_and, Bool.false_eq_true]

/-- C8 counterexample: the conversion's explicit check compares only `Er`
against `Ez`.  With `Er = Ez = [0, 0]` of length 2 and a grid of 1000
points, the three counts disagree, yet the result is not the
ShapeMismatch error (the failure surfaces later as a broadcasting
error). -/
theorem C8_only_er_ez_checked :
    (List.length ([0, 0] : List ℝ) ≠ gridLen ⟨1, 2, 1, 1⟩) ∧
    to_cartesian ⟨1, 2, 1, 1⟩ [0, 0] [0, 0] ≠ Except.error PyErr.shapeMismatch := by
  have hg : gridLen (⟨1, 2, 1, 1⟩ : CoaxialCylinder) = 1000 := by
    norm_num [gridLen, N_r, N_theta, N_z, truncI, pi_f]
    decide
  constructor
  · rw [hg]
    norm_num
  · rw [to_cartesian_broadcastErr _ _ _ rfl (by norm_num) (by rw [hg]; norm_num)
      (by rw [hg]; norm_num)]
    simp

/-- C8 amended: `to_cartesian` fails with ShapeMismatch exactly when `Er`
and `Ez` differ in length (the guard never inspects the grid's point
count); it succeeds exactly when `Er`, `Ez` and the point sequence all
have the same count, and an `Er`-`Ez` pair of equal length different from
the point count fails with a later broadcasting or stacking error
instead. -/
theorem C8_shape_guard (c : CoaxialCylinder) (Er Ez : List ℝ) (hN : 2 ≤ gridLen c) :
    (to_cartesian c Er Ez = .error .shapeMismatch ↔ Er.length ≠ Ez.length) ∧
    ((to_cartesian c Er Ez).isOk = true ↔ Er.length = Ez.length ∧ Er.length = gridLen c) := by
  have hN1 : gridLen c ≠ 1 := by omega
  by_cases hne : Er.length = Ez.length
  · by_cases hM : Er.length = gridLen c
    · obtain ⟨pts, units, mags, hok, _, _, _⟩ := to_cartesian_ok c Er Ez hM (hne ▸ hM)
      have hez : Ez.length = gridLen c := hne ▸ hM
      rw [hok]
      constructor
      · simp [hne]
      · simp [Except.isOk, Except.toBool, hne, hM, hez]
    · by_cases h1 : Er.length = 1
      · rw [to_cartesian_stackErr c Er Ez hne h1 hN1]
        constructor
        · simp [hne]
        · simp [Except.isOk, Except.toBool, hM]
      · rw [to_cartesian_broadcastErr c Er Ez hne h1 hM hN1]
        constructor
        · simp [hne]
        · simp [Except.isOk, Except.toBool, hM]
  · have hres : to_cartesian c Er Ez = .error .shapeMismatch := by
      unfold to_cartesian
      rw [if_pos hne]
    rw [hres]
    constructor
    · simp [hne]
    · simp [Except.isOk, Except.toBool, hne]

/-- C8 witness: the guard characterization discharged at a concrete
length-mismatched input on the source's concrete geometry. -/
theorem C8_shape_guard_witness :
    (to_cartesian defaultField.coords [] [(0 : ℝ)] = .error .shapeMismatch ↔
      ([] : List ℝ).length ≠ [(0 : ℝ)].length) ∧
    ((to_cartesian defaultField.coords [] [(0 : ℝ)]).isOk = true ↔
      ([] : List ℝ).length = [(0 : ℝ)].length ∧
        ([] : List ℝ).length = gridLen defaultField.coords) :=
  C8_shape_guard defaultField.coords [] [0]
    (by have := gridLen_ge defaultField.coords; omega)

/-- C2: a sample is classified DIELECTRIC iff its cylindrical radius is at
least `r_d` (so `r = r_d` is DIELECTRIC), and `calculate_field` multiplies
`Er` and `Ez` of exactly the DIELECTRIC samples by `eps_d / eps_g`,
leaving GAS samples unmodified.  The code's mask compares the clamped
radius `max r 1e-15` with `r_d`; since `r_d` exceeds the clamp floor, that
is equivalent to comparing the radius itself. -/
theorem C2_region_correction (f : DielectricField) (hrd : (1e-15 : ℝ) < (f.r_d : ℝ))
    (i : ℕ) (hi : i < gridLen f.coords) :
    ∃ r er ez, f.coords.coordinates.1[i]? = some r ∧
      f.ErList[i]? = some er ∧ f.EzList[i]? = some ez ∧
      (f.regions[i]? = some Region.DIELECTRIC ↔ (f.r_d : ℝ) ≤ r) ∧
      (f.regions[i]? = some Region.GAS ↔ ¬(f.r_d : ℝ) ≤ r) ∧
      f.Er_diel[i]? = some (if (f.r_d : ℝ) ≤ r then er * f.factor_diel else er) ∧
      f.Ez_diel[i]? = some (if (f.r_d : ℝ) ≤ r then ez * f.factor_diel else ez) := by
  have hir : i < f.coords.coordinates.1.length := by
    rw [length_coordinates_r]
    exact hi
  have hier : i < f.ErList.length := by
    rw [length_ErList]
    exact hi
  have hiez : i < f.EzList.length := by
    rw [length_EzList]
    exact hi
  refine ⟨f.coords.coordinates.1.get ⟨i, hir⟩, f.ErList.get ⟨i, hier⟩,
    f.EzList.get ⟨i, hiez⟩, ?_, ?_, ?_, ?_, ?_, ?_, ?_⟩
  · rw [List.getElem?_eq_getElem hir]
    rfl
  · rw [List.getElem?_eq_getElem hier]
    rfl
  · rw [List.getElem?_eq_getElem hiez]
    rfl
  · have hreg : f.regions[i]? =
        some (if (f.r_d : ℝ) ≤ f.coords.coordinates.1.get ⟨i, hir⟩
          then Region.DIELECTRIC else Region.GAS) := by
      unfold DielectricField.regions
      rw [List.getElem?_map, List.getElem?_eq_getElem hir]
      rfl
    rw [hreg]
    by_cases hc : (f.r_d : ℝ) ≤ f.coords.coordinates.1.get ⟨i, hir⟩
    · simp [hc]
    · simp [hc]
  · have hreg : f.regions[i]? =
        some (if (f.r_d : ℝ) ≤ f.coords.coordinates.1.get ⟨i, hir⟩
          then Region.DIELECTRIC else Region.GAS) := by
      unfold DielectricField.regions
      rw [List.getElem?_map, List.getElem?_eq_getElem hir]
      rfl
    rw [hreg]
    by_cases hc : (f.r_d : ℝ) ≤ f.coords.coordinates.1.get ⟨i, hir⟩
    · simp [hc]
    · simp [hc]
  · have hsafe : f.rsafeList[i]? =
        some (max (f.coords.coordinates.1.get ⟨i, hir⟩) 1e-15) := by
      unfold DielectricField.rsafeList
      rw [List.getElem?_map, List.getElem?_eq_getElem hir]
      rfl
    have her : f.ErList[i]? = some (f.ErList.get ⟨i, hier⟩) :=
      List.getElem?_eq_getElem hier
    unfold DielectricField.Er_diel
    rw [List.getElem?_zipWith, hsafe, her]
    show some (dielCorr (f.r_d : ℝ) f.factor_diel
        (max (f.coords.coordinates.1.get ⟨i, hir⟩) 1e-15) (f.ErList.get ⟨i, hier⟩)) = _
    unfold dielCorr
    exact congrArg some (if_congr (max_mask_iff hrd) rfl rfl)
  · have hsafe : f.rsafeList[i]? =
        some (max (f.coords.coordinates.1.get ⟨i, hir⟩) 1e-15) := by
      unfold DielectricField.rsafeList
      rw [List.getElem?_map, List.getElem?_eq_getElem hir]
      rfl
    have hez2 : f.EzList[i]? = some (f.EzList.get ⟨i, hiez⟩) :=
      List.getElem?_eq_getElem hiez
    unfold DielectricField.Ez_diel
    rw [List.getElem?_zipWith, hsafe, hez2]
    show some (dielCorr (f.r_d : ℝ) f.factor_diel
        (max (f.coords.coordinates.1.get ⟨i, hir⟩) 1e-15) (f.EzList.get ⟨i, hiez⟩)) = _
    unfold dielCorr
    exact congrArg some (if_congr (max_mask_iff hrd) rfl rfl)

/-- C2 witness: the classification and correction discharged at sample 0
of the source's concrete configuration. -/
theorem C2_region_correction_witness :
    ∃ r er ez, defaultField.coords.coordinates.1[0]? = some r ∧
      defaultField.ErList[0]? = some er ∧ defaultField.EzList[0]? = some ez ∧
      (defaultField.regions[0]? = some Region.DIELECTRIC ↔ (defaultField.r_d : ℝ) ≤ r) ∧
      (defaultField.regions[0]? = some Region.GAS ↔ ¬(defaultField.r_d : ℝ) ≤ r) ∧
      defaultField.Er_diel[0]? =
        some (if (defaultField.r_d : ℝ) ≤ r then er * defaultField.factor_diel else er) ∧
      defaultField.Ez_diel[0]? =
        some (if (defaultField.r_d : ℝ) ≤ r then ez * defaultField.factor_diel else ez) :=
  C2_region_correction defaultField
    (by norm_num [defaultField])
    0 (gridLen_pos defaultField.coords)

/-- C10: for every geometry whose inner radius exceeds the numerical
floor `1e-15` (and with `r_i ≤ r_o` as every valid geometry satisfies),
every cylindrical radius recomputed from the grid points is at least
`r_i`, so the division guards `max(r, 1e-15)` used both in
`to_cartesian` and in `calculate_field` leave every radius unchanged and
the guarded divisions equal the unguarded ones. -/
theorem C10_guard_no_op (c : CoaxialCylinder) (h1 : (1e-15 : ℚ) < c.r_i)
    (h2 : c.r_i ≤ c.r_o) (i : ℕ) (hi : i < gridLen c) :
    ∃ r, c.rz_coordinates.1[i]? = some r ∧ (c.r_i : ℝ) ≤ r ∧
      max r 1e-15 = r ∧ ∀ x : ℝ, x / max r 1e-15 = x / r := by
  have hir : i < c.rz_coordinates.1.length := by
    rw [length_rz_r]
    exact hi
  have hb := rz_radius_core c (by linarith [show (0:ℚ) < 1e-15 from by norm_num]) h2 i hir
  refine ⟨c.rz_coordinates.1.get ⟨i, hir⟩, List.getElem?_eq_getElem hir, hb.1, ?_, ?_⟩
  · apply max_eq_left
    have hcast : ((1e-15 : ℚ) : ℝ) < ((c.r_i : ℚ) : ℝ) := by exact_mod_cast h1
    have : ((1e-15 : ℚ) : ℝ) = (1e-15 : ℝ) := by norm_num
    linarith [hb.1]
  · intro x
    rw [max_eq_left]
    have hcast : ((1e-15 : ℚ) : ℝ) < ((c.r_i : ℚ) : ℝ) := by exact_mod_cast h1
    have : ((1e-15 : ℚ) : ℝ) = (1e-15 : ℝ) := by norm_num
    linarith [hb.1]

/-- C10 witness: the guard is a no-op at sample 0 of the source's
concrete geometry. -/
theorem C10_guard_no_op_witness :
    ∃ r, defaultField.coords.rz_coordinates.1[0]? = some r ∧
      (defaultField.coords.r_i : ℝ) ≤ r ∧
      max r 1e-15 = r ∧ ∀ x : ℝ, x / max r 1e-15 = x / r :=
  C10_guard_no_op defaultField.coords
    (by norm_num [defaultField, DielectricField.coords])
    (by norm_num [defaultField, DielectricField.coords])
    0 (gridLen_pos defaultField.coords)

theorem getElem?_flatMap_map {β γ δ : Type} (bs : List β) (cs : List γ) (g : β → γ → δ)
    (ib ic : ℕ) (hb : ib < bs.length) (hc : ic < cs.length) :
    (bs.flatMap fun b => cs.map fun z => g b z)[ib * cs.length + ic]? =
      some (g (bs.get ⟨ib, hb⟩) (cs.get ⟨ic, hc⟩)) := by
  induction bs generalizing ib with
  | nil => simp at hb
  | cons b t ih =>
    rw [List.flatMap_cons]
    cases ib with
    | zero =>
      rw [Nat.zero_mul, Nat.zero_add]
      rw [List.getElem?_append_left (by rw [List.length_map]; exact hc)]
      rw [List.getElem?_map, List.getElem?_eq_getElem hc]
      rfl
    | succ m =>
      have hlen : (cs.map fun z => g b z).length = cs.length := List.length_map _ _
      have harith : (m + 1) * cs.length + ic = cs.length + (m * cs.length + ic) := by ring
      rw [harith, List.getElem?_append_right (by rw [hlen]; exact Nat.le_add_right _ _),
        hlen, Nat.add_sub_cancel_left]
      have hm : m < t.length := Nat.lt_of_succ_lt_succ hb
      rw [ih m hm]
      rfl

theorem getElem?_gridFlat {α β γ δ : Type} (as : List α) (bs : List β) (cs : List γ)
    (g : α → β → γ → δ) (ia ib ic : ℕ) (ha : ia < as.length) (hb : ib < bs.length)
    (hc : ic < cs.length) :
    (as.flatMap fun a => bs.flatMap fun b => cs.map fun z => g a b z)[
        ia * (bs.length * cs.length) + (ib * cs.length + ic)]? =
      some (g (as.get ⟨ia, ha⟩) (bs.get ⟨ib, hb⟩) (cs.get ⟨ic, hc⟩)) := by
  induction as generalizing ia with
  | nil => simp at ha
  | cons a t ih =>
    rw [List.flatMap_cons]
    have hinner : (bs.flatMap fun b => cs.map fun z => g a b z).length =
        bs.length * cs.length :=
      length_flatMap_const _ _ _ fun b _ => List.length_map _ _
    cases ia with
    | zero =>
      rw [Nat.zero_mul, Nat.zero_add]
      have hlt : ib * cs.length + ic < bs.length * cs.length := by
        calc ib * cs.length + ic < ib * cs.length + cs.length := Nat.add_lt_add_left hc _
          _ = (ib + 1) * cs.length := by ring
          _ ≤ bs.length * cs.length := Nat.mul_le_mul_right _ (Nat.succ_le_of_lt hb)
      rw [List.getElem?_append_left (by rw [hinner]; exact hlt)]
      rw [getElem?_flatMap_map bs cs (g a) ib ic hb hc]
      rfl
    | succ m =>
      have harith : (m + 1) * (bs.length * cs.length) + (ib * cs.length + ic) =
          bs.length * cs.length + (m * (bs.length * cs.length) + (ib * cs.length + ic)) := by
        ring
      rw [harith, List.getElem?_append_right (by rw [hinner]; exact Nat.le_add_right _ _),
        hinner, Nat.add_sub_cancel_left]
      have hm : m < t.length := Nat.lt_of_succ_lt_succ ha
      rw [ih m hm]
      rfl

/-- C7: the flattened point sequence is the full outer product of the
radial, angular and axial coordinate sequences in radius-major order
(radius outermost, then angle, then axial): the element at composite
index `ir * (N_theta * N_z) + it * N_z + iz` combines the `ir`-th radial,
`it`-th angular and `iz`-th axial sample, and the flattened Cartesian
arrays are aligned with it at the same position.  Being a pure function
of the inputs, the enumeration is identical across calls. -/
theorem C7_radius_major_order (c : CoaxialCylinder) (ir it iz : ℕ)
    (hr : ir < N_r c) (ht : it < N_theta c) (hz : iz < N_z c) :
    ∃ rv tv zv, (spaced_coordinates c).1[ir]? = some rv ∧
      (spaced_coordinates c).2.1[it]? = some tv ∧
      (spaced_coordinates c).2.2[iz]? = some zv ∧
      (gridTriples c)[ir * (N_theta c * N_z c) + (it * N_z c + iz)]? = some (rv, tv, zv) ∧
      (xs c)[ir * (N_theta c * N_z c) + (it * N_z c + iz)]? =
        some ((rv : ℝ) * Real.cos (tv : ℝ)) ∧
      (ys c)[ir * (N_theta c * N_z c) + (it * N_z c + iz)]? =
        some ((rv : ℝ) * Real.sin (tv : ℝ)) ∧
      (zs c)[ir * (N_theta c * N_z c) + (it * N_z c + iz)]? = some ((zv : ℝ)) := by
  have hlr : (spaced_coordinates c).1.length = N_r c := by
    simp [spaced_coordinates]
  have hlt2 : (spaced_coordinates c).2.1.length = N_theta c := by
    simp [spaced_coordinates]
  have hlz : (spaced_coordinates c).2.2.length = N_z c := by
    simp [spaced_coordinates]
  have hr2 : ir < (spaced_coordinates c).1.length := by rw [hlr]; exact hr
  have ht2 : it < (spaced_coordinates c).2.1.length := by rw [hlt2]; exact ht
  have hz2 : iz < (spaced_coordinates c).2.2.length := by rw [hlz]; exact hz
  have hmain := getElem?_gridFlat (spaced_coordinates c).1 (spaced_coordinates c).2.1
    (spaced_coordinates c).2.2 (fun r t z => (r, t, z)) ir it iz hr2 ht2 hz2
  have hgrid : (gridTriples c)[ir * (N_theta c * N_z c) + (it * N_z c + iz)]? =
      some ((spaced_coordinates c).1.get ⟨ir, hr2⟩,
        (spaced_coordinates c).2.1.get ⟨it, ht2⟩,
        (spaced_coordinates c).2.2.get ⟨iz, hz2⟩) := by
    unfold gridTriples
    rw [show N_theta c = (spaced_coordinates c).2.1.length from hlt2.symm,
      show N_z c = (spaced_coordinates c).2.2.length from hlz.symm]
    exact hmain
  refine ⟨(spaced_coordinates c).1.get ⟨ir, hr2⟩,
    (spaced_coordinates c).2.1.get ⟨it, ht2⟩,
    (spaced_coordinates c).2.2.get ⟨iz, hz2⟩,
    List.getElem?_eq_getElem hr2, List.getElem?_eq_getElem ht2,
    List.getElem?_eq_getElem hz2, hgrid, ?_, ?_, ?_⟩
  · unfold xs
    rw [List.getElem?_map, hgrid]
    rfl
  · unfold ys
    rw [List.getElem?_map, hgrid]
    rfl
  · unfold zs
    rw [List.getElem?_map, hgrid]
    rfl

/-- C7 witness: the correspondence discharged at the first sample of the
source's concrete geometry. -/
theorem C7_radius_major_order_witness :
    ∃ rv tv zv, (spaced_coordinates defaultField.coords).1[0]? = some rv ∧
      (spaced_coordinates defaultField.coords).2.1[0]? = some tv ∧
      (spaced_coordinates defaultField.coords).2.2[0]? = some zv ∧
      (gridTriples defaultField.coords)[0 * (N_theta defaultField.coords *
        N_z defaultField.coords) + (0 * N_z defaultField.coords + 0)]? =
        some (rv, tv, zv) ∧
      (xs defaultField.coords)[0 * (N_theta defaultField.coords *
        N_z defaultField.coords) + (0 * N_z defaultField.coords + 0)]? =
        some ((rv : ℝ) * Real.cos (tv : ℝ)) ∧
      (ys defaultField.coords)[0 * (N_theta defaultField.coords *
        N_z defaultField.coords) + (0 * N_z defaultField.coords + 0)]? =
        some ((rv : ℝ) * Real.sin (tv : ℝ)) ∧
      (zs defaultField.coords)[0 * (N_theta defaultField.coords *
        N_z defaultField.coords) + (0 * N_z defaultField.coords + 0)]? =
        some ((zv : ℝ)) :=
  C7_radius_major_order defaultField.coords 0 0 0
    (by have := N_r_ge defaultField.coords; omega)
    (by have := N_theta_ge defaultField.coords; omega)
    (by have := N_z_ge defaultField.coords; omega)

theorem term1F_neg (h r z : ℝ) : term1F h r (-z) = -term2F h r z := by
  unfold term1F term2F
  rw [show r ^ 2 + (-z + h) ^ 2 = r ^ 2 + (z - h) ^ 2 from by ring]
  rw [show -z + h = -(z - h) from by ring, neg_div]

theorem term2F_neg (h r z : ℝ) : term2F h r (-z) = -term1F h r z := by
  unfold term1F term2F
  rw [show r ^ 2 + (-z - h) ^ 2 = r ^ 2 + (z + h) ^ 2 from by ring]
  rw [show -z - h = -(z + h) from by ring, neg_div]

theorem axial_factor_neg (h r z : ℝ) : axial_factor h r (-z) = axial_factor h r z := by
  unfold axial_factor
  rw [term1F_neg, term2F_neg]
  ring

/-- C6: the field formulas are symmetric about the midplane, `Er` evenly
and `Ez` oddly in `z`, both before and after the dielectric correction
(whose factor depends only on `r`). -/
theorem C6_midplane_symmetry (V0 G h r z : ℝ) (_hr : 0 < r) (rd fac : ℝ) :
    ErF V0 G h r (-z) = ErF V0 G h r z ∧
    EzF V0 G h r (-z) = -EzF V0 G h r z ∧
    dielCorr rd fac r (ErF V0 G h r (-z)) = dielCorr rd fac r (ErF V0 G h r z) ∧
    dielCorr rd fac r (EzF V0 G h r (-z)) = -dielCorr rd fac r (EzF V0 G h r z) := by
  have her : ErF V0 G h r (-z) = ErF V0 G h r z := by
    unfold ErF
    rw [axial_factor_neg]
  have hez : EzF V0 G h r (-z) = -EzF V0 G h r z := by
    unfold EzF
    rw [show r ^ 2 + (-z - h) ^ 2 = r ^ 2 + (z + h) ^ 2 from by ring]
    rw [show r ^ 2 + (-z + h) ^ 2 = r ^ 2 + (z - h) ^ 2 from by ring]
    ring
  refine ⟨her, hez, by rw [her], ?_⟩
  rw [hez]
  unfold dielCorr
  by_cases hc : rd ≤ r
  · simp only [if_pos hc]
    ring
  · simp only [if_neg hc]

theorem sqrt_quad_pos (r t : ℝ) (hr : 0 < r) : 0 < Real.sqrt (r ^ 2 + t ^ 2) :=
  Real.sqrt_pos.mpr (by positivity)

theorem ratio_le (r t1 t2 : ℝ) (hr : 0 < r) (h : t2 ≤ t1) :
    t2 / Real.sqrt (r ^ 2 + t2 ^ 2) ≤ t1 / Real.sqrt (r ^ 2 + t1 ^ 2) := by
  have hs1 : 0 < Real.sqrt (r ^ 2 + t1 ^ 2) := sqrt_quad_pos r t1 hr
  have hs2 : 0 < Real.sqrt (r ^ 2 + t2 ^ 2) := sqrt_quad_pos r t2 hr
  have hq1 : Real.sqrt (r ^ 2 + t1 ^ 2) ^ 2 = r ^ 2 + t1 ^ 2 :=
    Real.sq_sqrt (by positivity)
  have hq2 : Real.sqrt (r ^ 2 + t2 ^ 2) ^ 2 = r ^ 2 + t2 ^ 2 :=
    Real.sq_sqrt (by positivity)
  rw [div_le_div_iff₀ hs2 hs1]
  rcases le_or_lt 0 t2 with ht2 | ht2
  · have ht1 : 0 ≤ t1 := le_trans ht2 h
    have hsq : t2 ^ 2 ≤ t1 ^ 2 := by nlinarith
    refine le_of_pow_le_pow_left₀ (n := 2) (by norm_num) (mul_nonneg ht1 hs2.le) ?_
    rw [mul_pow, mul_pow, hq1, hq2]
    nlinarith [mul_le_mul_of_nonneg_left hsq (sq_nonneg r)]
  · rcases le_or_lt 0 t1 with ht1 | ht1
    · have ha : t2 * Real.sqrt (r ^ 2 + t1 ^ 2) ≤ 0 :=
        mul_nonpos_iff.mpr (Or.inr ⟨ht2.le, hs1.le⟩)
      have hb : 0 ≤ t1 * Real.sqrt (r ^ 2 + t2 ^ 2) := mul_nonneg ht1 hs2.le
      linarith
    · have hsq : t1 ^ 2 ≤ t2 ^ 2 := by nlinarith
      have key : -t1 * Real.sqrt (r ^ 2 + t2 ^ 2) ≤ -t2 * Real.sqrt (r ^ 2 + t1 ^ 2) := by
        refine le_of_pow_le_pow_left₀ (n := 2) (by norm_num)
          (mul_nonneg (by linarith) hs1.le) ?_
        rw [mul_pow, mul_pow, hq1, hq2, neg_pow, neg_pow]
        nlinarith [mul_le_mul_of_nonneg_left hsq (sq_nonneg r)]
      nlinarith [key]

theorem ratio_lt_one (r t : ℝ) (hr : 0 < r) : t / Real.sqrt (r ^ 2 + t ^ 2) < 1 := by
  have hs : 0 < Real.sqrt (r ^ 2 + t ^ 2) := sqrt_quad_pos r t hr
  rw [div_lt_one hs]
  rcases le_or_lt t 0 with ht | ht
  · linarith
  · have hq : Real.sqrt (r ^ 2 + t ^ 2) ^ 2 = r ^ 2 + t ^ 2 :=
      Real.sq_sqrt (by positivity)
    have hr2 : 0 < r ^ 2 := by positivity
    nlinarith [hs, hq]

theorem ratio_gt_neg_one (r t : ℝ) (hr : 0 < r) : -1 < t / Real.sqrt (r ^ 2 + t ^ 2) := by
  have h := ratio_lt_one r (-t) hr
  rw [show r ^ 2 + (-t) ^ 2 = r ^ 2 + t ^ 2 from by ring, neg_div] at h
  linarith

theorem axial_factor_bounds (h r z : ℝ) (hr : 0 < r) (hh : 0 ≤ h) :
    0 ≤ axial_factor h r z ∧ axial_factor h r z < 1 := by
  unfold axial_factor term1F term2F
  have hle := ratio_le r (z + h) (z - h) hr (by linarith)
  have h1 := ratio_lt_one r (z + h) hr
  have h2 := ratio_gt_neg_one r (z - h) hr
  constructor
  · linarith
  · linarith

/-- C9: the spec-modelled diagnostic `mean_radial_error()` is strictly
positive and at most 1 for every configuration with positive inner radius,
ordered radii and positive finite length; determinism is immediate since
the embedding is a pure function of the configuration. -/
theorem C9_mean_radial_error_bounds (f : DielectricField) (h1 : 0 < f.r_a)
    (h2 : f.r_a ≤ f.r_b) (h3 : 0 < f.L) :
    0 < f.mean_radial_error ∧ f.mean_radial_error ≤ 1 := by
  simp only [DielectricField.mean_radial_error]
  set err := List.zipWith (fun r z => 1 - axial_factor ((f.L : ℝ) / 2) r z)
    f.coords.coordinates.1 f.coords.coordinates.2 with herr
  have hlen : err.length = gridLen f.coords := by
    rw [herr, List.length_zipWith, length_coordinates_r, length_coordinates_z, min_self]
  have hmem : ∀ x ∈ err, 0 < x ∧ x ≤ 1 := by
    intro x hx
    rw [herr] at hx
    obtain ⟨i, ha, hb, hval⟩ := of_mem_zipWith hx
    have hrad := rz_radius_core f.coords h1.le h2 i ha
    have hr_pos : (0 : ℝ) < f.coords.coordinates.1.get ⟨i, ha⟩ := by
      have hcast : (0 : ℝ) < ((f.coords.r_i : ℚ) : ℝ) := by
        exact_mod_cast (show (0 : ℚ) < f.coords.r_i from h1)
      exact lt_of_lt_of_le hcast hrad.1
    have hhalf : (0 : ℝ) ≤ (f.L : ℝ) / 2 := by
      have : (0 : ℝ) < (f.L : ℝ) := by exact_mod_cast h3
      linarith
    have hbnd := axial_factor_bounds ((f.L : ℝ) / 2)
      (f.coords.coordinates.1.get ⟨i, ha⟩) (f.coords.coordinates.2.get ⟨i, hb⟩)
      hr_pos hhalf
    rw [hval]
    constructor
    · linarith [hbnd.2]
    · linarith [hbnd.1]
  have hne : err ≠ [] := by
    apply List.length_pos.mp
    rw [hlen]
    exact gridLen_pos _
  have hsum_pos : 0 < err.sum := List.sum_pos err (fun x hx => (hmem x hx).1) hne
  have hsum_le : err.sum ≤ (err.length : ℝ) := by
    have hcard := List.sum_le_card_nsmul err 1 fun x hx => (hmem x hx).2
    simpa using hcard
  have hlen_pos : (0 : ℝ) < (err.length : ℝ) := by
    have hpos := gridLen_pos f.coords
    rw [hlen]
    exact_mod_cast hpos
  constructor
  · exact div_pos hsum_pos hlen_pos
  · rw [div_le_one hlen_pos]
    exact hsum_le

/-- C9 witness: the bounds discharged at the source's concrete
configuration. -/
theorem C9_mean_radial_error_bounds_witness :
    0 < defaultField.mean_radial_error ∧ defaultField.mean_radial_error ≤ 1 :=
  C9_mean_radial_error_bounds defaultField
    (by norm_num [defaultField])
    (by norm_num [defaultField])
    (by norm_num [defaultField])

/-- C6 witness: the symmetry discharged at the concrete point
`V0 = G = h = r = 1`, `z = 1`, correction parameters `rd = 0`, `fac = 5`. -/
theorem C6_midplane_symmetry_witness :
    ErF 1 1 1 1 (-1) = ErF 1 1 1 1 1 ∧
    EzF 1 1 1 1 (-1) = -EzF 1 1 1 1 1 ∧
    dielCorr 0 5 1 (ErF 1 1 1 1 (-1)) = dielCorr 0 5 1 (ErF 1 1 1 1 1) ∧
    dielCorr 0 5 1 (EzF 1 1 1 1 (-1)) = -dielCorr 0 5 1 (EzF 1 1 1 1 1) :=
  C6_midplane_symmetry 1 1 1 1 1 (by norm_num) 0 5

end EFP
